import Mathlib

set_option maxHeartbeats 1000000

/-
Shallow embedding of the polysat saturation engine
(src/math/polysat/saturation.cpp) together with the external interfaces it
uses (solver model queries, viable-range tracker, per-variable bound
justifications, conflict core).  Pure functions of the source file are
translated one-to-one; the two search loops of push_omega_bisect are given
as explicit step functions iterated on a fuel argument, with fuel
exhaustion returning none (the source runs the loop unboundedly).
External collaborators that live outside the given source file (the pdd
term facility, solver evaluation, and the conflict-core mutators) are
modelled from the specification, as marked on each definition.
-/

/-- Three-valued boolean trail value of a literal (external, l_true, l_false,
l_undef in the source). -/
inductive LBool where
  | ltrue
  | lfalse
  | lundef
deriving DecidableEq

/-- Monomial: the multiset of variables of one power product, kept as an
ascending sorted list (a variable occurs once per power). -/
abbrev Monom := List Nat

/-- Modelled from the spec: the external polynomial facility (pdd).  A
canonical sum of monomials with nonzero coefficients in the ring of
integers mod 2^w, kept as a list sorted by monomial.  Structural equality
of canonical forms models pdd equality. -/
abbrev Pdd := List (Nat × Monom)

/-- Total order on monomials used to keep canonical forms sorted. -/
def mon_le : Monom → Monom → Bool
  | [], _ => true
  | _ :: _, [] => false
  | a :: xs, b :: ys => if a < b then true else if b < a then false else mon_le xs ys

/-- Insertion of one variable into a sorted variable list. -/
def mon_insert (a : Nat) : Monom → Monom
  | [] => [a]
  | b :: ys => if a ≤ b then a :: b :: ys else b :: mon_insert a ys

/-- Product of two power products: merge of the sorted variable lists. -/
def mon_mul (xs ys : Monom) : Monom := xs.foldr mon_insert ys

/-- Add a single coefficient-monomial pair into a canonical form, with
coefficients reduced mod m and zero terms dropped. -/
def add_mono (m : Nat) (c : Nat) (mo : Monom) : Pdd → Pdd
  | [] => if c % m == 0 then [] else [(c % m, mo)]
  | (c2, mo2) :: rest =>
    if mo == mo2 then
      if (c + c2) % m == 0 then rest else ((c + c2) % m, mo2) :: rest
    else if mon_le mo mo2 then
      if c % m == 0 then (c2, mo2) :: rest else (c % m, mo) :: (c2, mo2) :: rest
    else (c2, mo2) :: add_mono m c mo rest

/-- Modelled from the spec: pdd multiplication in the ring mod m. -/
def Pdd.mul (m : Nat) (p q : Pdd) : Pdd :=
  p.foldl (fun acc t1 => q.foldl (fun acc2 t2 => add_mono m (t1.1 * t2.1) (mon_mul t1.2 t2.2) acc2) acc) []

/-- Modelled from the spec: the pdd of a single variable (s().var(v)). -/
def var_pdd (v : Nat) : Pdd := [(1, [v])]

/-- Modelled from the spec: a constant pdd (pddm.mk_val), value reduced mod m. -/
def const_pdd (m n : Nat) : Pdd := if n % m == 0 then [] else [(n % m, [])]

/-- Modelled from the spec: degree of a pdd in one variable (p.degree(x)). -/
def Pdd.degree (x : Nat) (p : Pdd) : Nat := p.foldl (fun d t => max d (t.2.count x)) 0

/-- Modelled from the spec: p.factor(x, 1, y), writing p as x * y exactly;
succeeds when every monomial contains x, and removes one occurrence of x
from each. -/
def Pdd.factor_once (x : Nat) (p : Pdd) : Option Pdd :=
  if p.all (fun t => t.2.contains x) then some (p.map (fun t => (t.1, t.2.erase x))) else none

/-- Modelled from the spec: exact division of a pdd by a constant
(p.try_div(c, out)); every coefficient must be divisible by c. -/
def Pdd.try_div (c : Nat) (p : Pdd) : Option Pdd :=
  if c == 0 then none
  else if p.all (fun t => t.1 % c == 0) then some (p.map (fun t => (t.1 / c, t.2))) else none

/-- Modelled from the spec: p.is_unary(), a single variable scaled by a
constant. -/
def Pdd.is_unary : Pdd → Bool
  | [(_, [_])] => true
  | _ => false

/-- Modelled from the spec: the constant scale of a unary pdd
(x.hi().val() in the source). -/
def Pdd.unary_coeff : Pdd → Nat
  | [(c, [_])] => c
  | _ => 0

/-- Modelled from the spec: p.is_var(), a bare variable. -/
def Pdd.is_var : Pdd → Bool
  | [(c, [_])] => c == 1
  | _ => false

/-- Modelled from the spec: p.var(), the top variable of a pdd (the largest
variable occurring; 0 for a constant). -/
def Pdd.pvar (p : Pdd) : Nat := p.foldl (fun a t => t.2.foldl max a) 0

/-- Constraint kinds visible to the saturation engine: non-strict
inequalities (ule), equalities to zero (eq), and any other kind, which the
engine skips.  Strict inequalities are the negations of reversed ule
constraints. -/
inductive RawConstraint where
  | ule (lhs rhs : Pdd)
  | eqz (p : Pdd)
  | other (tag : Nat)
deriving DecidableEq

/-- Modelled from the spec: a literal, a constraint with an asserted
polarity (signed_constraint). -/
structure SignedConstraint where
  sign : Bool
  raw : RawConstraint
deriving DecidableEq

/-- Negation of a literal flips its polarity. -/
def SignedConstraint.neg (c : SignedConstraint) : SignedConstraint := ⟨!c.sign, c.raw⟩

/-- Kind test used by the iteration in perform (c->is_ule()). -/
def SignedConstraint.is_ule : SignedConstraint → Bool
  | ⟨_, RawConstraint.ule _ _⟩ => true
  | _ => false

/-- Modelled from the spec: the inequality view of a literal
((lhs, rhs, strict) plus the originating literal, returned by
as_signed_constraint). -/
structure Inequality where
  lhs : Pdd
  rhs : Pdd
  is_strict : Bool
  src : SignedConstraint
deriving DecidableEq

/-- Modelled from the spec: c.as_inequality().  A positive ule literal is
the non-strict inequality lhs <= rhs; a negated ule literal asserts
rhs < lhs (strict, sides swapped).  Only called on ule literals; other
kinds yield a junk view. -/
def SignedConstraint.as_inequality (c : SignedConstraint) : Inequality :=
  match c with
  | ⟨true, RawConstraint.ule l r⟩ => ⟨l, r, false, c⟩
  | ⟨false, RawConstraint.ule l r⟩ => ⟨r, l, true, c⟩
  | _ => ⟨[], [], false, c⟩

/-- Modelled from the spec: s().ule(l, r). -/
def mk_ule (l r : Pdd) : SignedConstraint := ⟨true, RawConstraint.ule l r⟩

/-- Modelled from the spec: s().ult(l, r), the strict inequality l < r,
which the solver represents as the negation of r <= l. -/
def mk_ult (l r : Pdd) : SignedConstraint := ⟨false, RawConstraint.ule r l⟩

/-- Modelled from the spec: s().eq(p), the constraint p = 0. -/
def mk_eq (p : Pdd) : SignedConstraint := ⟨true, RawConstraint.eqz p⟩

/-- Modelled from the spec: the ambient solver state the engine reads: the
bit width of the ring, the current incomplete assignment, the viable-range
tracker (m_viable.max_viable), the per-variable bound-justification sets
(m_cjust) and the boolean trail value oracle (bvalue). -/
structure Solver where
  width : Nat
  assign : List (Nat × Nat)
  max_viable : Nat → Nat
  cjust : Nat → List SignedConstraint
  bval : SignedConstraint → LBool

/-- Ring bound 2^w (rational::power_of_two(bit_size) in the source). -/
def Solver.bound (s : Solver) : Nat := 2 ^ s.width

/-- Evaluate a power product under the current assignment; fails when any
variable is unassigned. -/
def mon_eval (s : Solver) : Monom → Option Nat
  | [] => some 1
  | v :: vs =>
    match s.assign.lookup v, mon_eval s vs with
    | some a, some b => some (a * b)
    | _, _ => none

/-- Modelled from the spec: s().try_eval(p, out), evaluation of a pdd to a
ring value under the current incomplete assignment. -/
def try_eval (s : Solver) : Pdd → Option Nat
  | [] => some 0
  | (c, mo) :: rest =>
    match mon_eval s mo, try_eval s rest with
    | some mv, some rv => some ((c * mv + rv) % s.bound)
    | _, _ => none

/-- Modelled from the spec: s().get_value(v) for an assigned variable. -/
def Solver.get_value (s : Solver) (v : Nat) : Nat := (s.assign.lookup v).getD 0

/-- Modelled from the spec: c.is_currently_false(s), the model-truth query:
the constraint evaluates under the current assignment and is definitely
false; undetermined when a referenced variable is unassigned (then not
false).  Other constraint kinds are external and never queried by this
engine. -/
def SignedConstraint.is_currently_false (c : SignedConstraint) (s : Solver) : Bool :=
  match c with
  | ⟨sign, RawConstraint.ule l r⟩ =>
    match try_eval s l, try_eval s r with
    | some lv, some rv => if sign then decide (rv < lv) else decide (lv ≤ rv)
    | _, _ => false
  | ⟨sign, RawConstraint.eqz p⟩ =>
    match try_eval s p with
    | some pv => if sign then decide (pv ≠ 0) else decide (pv = 0)
    | _ => false
  | ⟨_, RawConstraint.other _⟩ => false

/-- Mutation record of one conflict-core operation. -/
inductive CoreOp where
  | keep (c : SignedConstraint)
  | insert (c : SignedConstraint)
  | set (c : SignedConstraint)
deriving DecidableEq

/-- Modelled from the spec: the conflict core, the mutable working set of
literals.  lits is the iteration sequence; ops records every mutation
request (keep, insert, set) in order, so that frame properties can state
that no mutation was performed. -/
structure ConflictCore where
  lits : List SignedConstraint
  ops : List CoreOp
deriving DecidableEq

/-- Modelled from the spec: core.keep(c) pins dependency bookkeeping; the
literal set itself is unchanged. -/
def ConflictCore.keep (k : ConflictCore) (c : SignedConstraint) : ConflictCore :=
  ⟨k.lits, k.ops ++ [CoreOp.keep c]⟩

/-- Modelled from the spec: core.insert(c) adds a literal. -/
def ConflictCore.insert (k : ConflictCore) (c : SignedConstraint) : ConflictCore :=
  ⟨k.lits ++ [c], k.ops ++ [CoreOp.insert c]⟩

/-- Modelled from the spec: core.set(c) replaces the focus literal; the
replacement slot is external bookkeeping, outside the iteration sequence
modelled here, so only the operation is recorded. -/
def ConflictCore.set (k : ConflictCore) (c : SignedConstraint) : ConflictCore :=
  ⟨k.lits, k.ops ++ [CoreOp.set c]⟩

/-- State of the joint bisection loop of push_omega_bisect: the two
brackets. -/
structure BState where
  xlo : Int
  xhi : Int
  ylo : Int
  yhi : Int
deriving DecidableEq

/-- Loop guard of the joint bisection (x_lo < x_hi or y_lo < y_hi). -/
def bisect_guard (st : BState) : Bool := st.xlo < st.xhi || st.ylo < st.yhi

/-- One iteration of the joint bisection loop (saturation.cpp lines
103-110): floor-division midpoints; if their product reaches the bound
both upper ends shrink to mid - 1, else both lower ends rise to mid. -/
def bisect_step (bound : Int) (st : BState) : BState :=
  let xmid := Int.fdiv (st.xhi + st.xlo) 2
  let ymid := Int.fdiv (st.yhi + st.ylo) 2
  if bound ≤ xmid * ymid then ⟨st.xlo, xmid - 1, st.ylo, ymid - 1⟩
  else ⟨xmid, st.xhi, ymid, st.yhi⟩

/-- The joint bisection loop, iterated on fuel; none models a run that is
still inside the loop when the fuel is exhausted (the source loops
unboundedly). -/
def joint_loop (bound : Int) : Nat → BState → Option BState
  | 0, st => if bisect_guard st then none else some st
  | Nat.succ f, st => if bisect_guard st then joint_loop bound f (bisect_step bound st) else some st

/-- One iteration of a unilateral extension loop of push_omega_bisect
(lines 116-122 and 126-132): binary search of the moving bracket against a
fixed co-factor mult. -/
def ext_step (bound mult : Int) (p : Int × Int) : Int × Int :=
  let mid := Int.fdiv (p.2 + p.1) 2
  if bound ≤ mid * mult then (p.1, mid - 1) else (mid, p.2)

/-- The unilateral extension loop, iterated on fuel. -/
def ext_loop (bound mult : Int) : Nat → Int × Int → Option (Int × Int)
  | 0, p => if p.1 < p.2 then none else some p
  | Nat.succ f, p => if p.1 < p.2 then ext_loop bound mult f (ext_step bound mult p) else some p

/-- Emission step of push_omega_bisect when the x bracket was extended
(lines 142-145): the final x_lo is the lower end delivered by the
extension loop, y_lo is fixed. -/
def pob_finish_x (s : Solver) (ncs : List SignedConstraint) (x y : Pdd) (ylo : Int) : Option (Int × Int) → Option (List SignedConstraint)
  | none => none
  | some p => some (ncs ++ [mk_ule x (const_pdd s.bound p.1.toNat), mk_ule y (const_pdd s.bound ylo.toNat)])

/-- Emission step of push_omega_bisect when the y bracket was extended:
x_lo is fixed, the final y_lo comes from the extension loop. -/
def pob_finish_y (s : Solver) (ncs : List SignedConstraint) (x y : Pdd) (xlo : Int) : Option (Int × Int) → Option (List SignedConstraint)
  | none => none
  | some p => some (ncs ++ [mk_ule x (const_pdd s.bound xlo.toNat), mk_ule y (const_pdd s.bound p.1.toNat)])

/-- Tail of push_omega_bisect after the joint loop (lines 114-145): at most
one unilateral extension, then emission of the two bound literals. -/
def pob_after (fuel : Nat) (s : Solver) (ncs : List SignedConstraint) (x : Pdd) (x_max : Int) (y : Pdd) (y_max : Int) : Option BState → Option (List SignedConstraint)
  | none => none
  | some st =>
    if (st.xlo + 1) * st.ylo < (s.bound : Int) then
      pob_finish_x s ncs x y st.ylo (ext_loop (s.bound : Int) st.ylo fuel (st.xlo, x_max))
    else if st.xlo * (st.ylo + 1) < (s.bound : Int) then
      pob_finish_y s ncs x y st.xlo (ext_loop (s.bound : Int) st.xlo fuel (st.ylo, y_max))
    else some (ncs ++ [mk_ule x (const_pdd s.bound st.xlo.toNat), mk_ule y (const_pdd s.bound st.ylo.toNat)])

/-- push_omega_bisect (saturation.cpp lines 92-146): evaluate x and y under
the current model (the VERIFY calls; evaluation failure aborts, modelled
as none), run the joint bisection from the brackets [x_val, x_max] and
[y_val, y_max], then at most one unilateral extension, and append the two
literals x <= x_lo and y <= y_lo to the accumulated constraints. -/
def push_omega_bisect (fuel : Nat) (s : Solver) (ncs : List SignedConstraint) (x : Pdd) (x_max : Int) (y : Pdd) (y_max : Int) : Option (List SignedConstraint) :=
  match try_eval s x, try_eval s y with
  | some x_val, some y_val =>
    pob_after fuel s ncs x x_max y y_max
      (joint_loop (s.bound : Int) fuel ⟨(x_val : Int), x_max, (y_val : Int), y_max⟩)
  | _, _ => none

/-- Worst-case upper bound for one factor in push_omega (lines 154-160):
the viable-range maximum when the pdd is a bare variable, else bound - 1. -/
def x_max_of (s : Solver) (p : Pdd) : Int :=
  if Pdd.is_var p then ((s.max_viable (Pdd.pvar p) : Nat) : Int) else (s.bound : Int) - 1

/-- push_omega (lines 150-170): if the worst-case product can reach the
bound, run the bisection; else append the existing bound-justification
literals of y and then of x. -/
def push_omega (fuel : Nat) (s : Solver) (ncs : List SignedConstraint) (x y : Pdd) : Option (List SignedConstraint) :=
  if (s.bound : Int) ≤ x_max_of s x * x_max_of s y then
    push_omega_bisect fuel s ncs x (x_max_of s x) y (x_max_of s y)
  else some ((ncs ++ s.cjust (Pdd.pvar y)) ++ s.cjust (Pdd.pvar x))

/-- is_l_v (line 175): the inequality ends in the bare variable v. -/
def is_l_v (v : Nat) (i : Inequality) : Bool := i.rhs == var_pdd v

/-- is_g_v (line 182): the inequality starts with the bare variable v. -/
def is_g_v (v : Nat) (i : Inequality) : Bool := i.lhs == var_pdd v

/-- is_xY (line 257): xy has degree exactly one in x and factors as
x * y; returns y. -/
def is_xY (x : Nat) (xy : Pdd) : Option Pdd :=
  if Pdd.degree x xy == 1 then Pdd.factor_once x xy else none

/-- is_coeffxY (line 210): x is unary (a constant times a variable), p is
exactly divisible by that constant and the quotient factors through the
variable of x; returns the remaining factor. -/
def is_coeffxY (x : Pdd) (p : Pdd) : Option Pdd :=
  if Pdd.is_unary x then
    match Pdd.try_div (Pdd.unary_coeff x) p with
    | some xy => Pdd.factor_once (Pdd.pvar x) xy
    | none => none
  else none

/-- is_xY_l_xZ (line 250): both sides of the inequality factor through the
variable x; returns (y, z). -/
def is_xY_l_xZ (x : Nat) (c : Inequality) : Option (Pdd × Pdd) :=
  match is_xY x c.lhs, is_xY x c.rhs with
  | some y, some z => some (y, z)
  | _, _ => none

/-- is_Xy_l_XZ (line 228): the left side factors as v * x and the right as
z * x for the same unary x; returns (x, z). -/
def is_Xy_l_XZ (v : Nat) (c : Inequality) : Option (Pdd × Pdd) :=
  match is_xY v c.lhs with
  | some x =>
    match is_coeffxY x c.rhs with
    | some z => some (x, z)
    | none => none
  | none => none

/-- is_YX_l_zX (line 239): the right side factors as z * x and the left as
y * x for the same unary x; returns (x, y). -/
def is_YX_l_zX (z : Nat) (c : Inequality) : Option (Pdd × Pdd) :=
  match is_xY z c.rhs with
  | some x =>
    match is_coeffxY x c.lhs with
    | some y => some (x, y)
    | none => none
  | none => none

/-- is_Y_l_Ax (line 197): the right side factors as a * x; returns
(a, y) with y the left side. -/
def is_Y_l_Ax (x : Nat) (d : Inequality) : Option (Pdd × Pdd) :=
  match is_xY x d.rhs with
  | some a => some (a, d.lhs)
  | none => none

/-- is_non_overflow (line 218): both pdds evaluate under the current model
and the product of the values stays below the ring bound. -/
def is_non_overflow (s : Solver) (x y : Pdd) : Bool :=
  match try_eval s x, try_eval s y with
  | some xv, some yv => decide (xv * yv < s.bound)
  | _, _ => false

/-- ineq (line 49): build the candidate literal, strict or not. -/
def ineq (is_strict : Bool) (lhs rhs : Pdd) : SignedConstraint :=
  if is_strict then mk_ult lhs rhs else mk_ule lhs rhs

/-- propagate (lines 60-84): gate on the critical premises being refuted by
the model and on the candidate being boolean-false or model-false; on
success pin both critical literals, then insert the negation of the
candidate (boolean-false case) or set the candidate (model-false case),
then insert all derived side conditions. -/
def propagate (s : Solver) (core : ConflictCore) (crit1 crit2 : Inequality) (c : SignedConstraint) (ncs : List SignedConstraint) : Bool × ConflictCore :=
  if !(crit1.src.is_currently_false s) && !(crit2.src.is_currently_false s) then (false, core)
  else if !(s.bval c == LBool.lfalse) && !(c.is_currently_false s) then (false, core)
  else
    (true, ncs.foldl ConflictCore.insert
      (if s.bval c == LBool.lfalse
        then ((core.keep crit1.src).keep crit2.src).insert c.neg
        else ((core.keep crit1.src).keep crit2.src).set c))

/-- Initial side-condition vector of try_ugt_x (line 278-279): the
disequality v != 0 in the non-strict case. -/
def ugt_x_init (v : Nat) (c : Inequality) : List SignedConstraint :=
  if !c.is_strict then [(mk_eq (var_pdd v)).neg] else []

/-- Final step shared by the four rules: the side conditions delivered by
push_omega (none when its bisection never finished) feed the call to
propagate with the two critical premises and the candidate literal. -/
def rule_finish (s : Solver) (core : ConflictCore) (crit1 crit2 : Inequality) (cand : SignedConstraint) : Option (List SignedConstraint) → Option (Bool × ConflictCore)
  | none => none
  | some ncs => some (propagate s core crit1 crit2 cand ncs)

/-- try_ugt_x (lines 266-282): from x*Y <= x*Z with x = v, guarded by
non-overflow of x*Y and, in the non-strict case, by the current value of v
being nonzero, derive Y <= Z. -/
def try_ugt_x (fuel : Nat) (s : Solver) (v : Nat) (core : ConflictCore) (c : Inequality) : Option (Bool × ConflictCore) :=
  match is_xY_l_xZ v c with
  | none => some (false, core)
  | some (y, z) =>
    if !(is_non_overflow s (var_pdd v) y) then some (false, core)
    else if !c.is_strict && (s.get_value v == 0) then some (false, core)
    else
      rule_finish s core c c (ineq c.is_strict y z)
        (push_omega fuel s (ugt_x_init v c) (var_pdd v) y)

/-- Inner try_ugt_y (lines 286-302): given the outer literal z' <= v and a
companion v*x <= z*x, guarded by non-overflow of x*v, derive
z'*x <= z*x; both critical literals are pushed into the side conditions
before the omega premises. -/
def try_ugt_y2 (fuel : Nat) (s : Solver) (v : Nat) (core : ConflictCore) (le_y yx_l_zx : Inequality) (x z : Pdd) : Option (Bool × ConflictCore) :=
  if !(is_non_overflow s x (var_pdd v)) then some (false, core)
  else
    rule_finish s core le_y yx_l_zx
      (ineq (yx_l_zx.is_strict || le_y.is_strict) (Pdd.mul s.bound le_y.lhs x) (Pdd.mul s.bound z x))
      (push_omega fuel s [le_y.src, yx_l_zx.src] x (var_pdd v))

/-- Companion scan of try_ugt_y (lines 309-315). -/
def try_ugt_y_go (fuel : Nat) (s : Solver) (v : Nat) (c : Inequality) : List SignedConstraint → ConflictCore → Option (Bool × ConflictCore)
  | [], core => some (false, core)
  | dd :: rest, core =>
    if dd.is_ule then
      match is_Xy_l_XZ v dd.as_inequality with
      | some (x, z) =>
        match try_ugt_y2 fuel s v core c dd.as_inequality x z with
        | none => none
        | some r => if r.1 then some r else try_ugt_y_go fuel s v c rest r.2
      | none => try_ugt_y_go fuel s v c rest core
    else try_ugt_y_go fuel s v c rest core

/-- try_ugt_y (lines 304-317): the outer literal must end in the bare
variable v; scan the core for a companion of shape v*x <= z*x. -/
def try_ugt_y (fuel : Nat) (s : Solver) (v : Nat) (core : ConflictCore) (c : Inequality) : Option (Bool × ConflictCore) :=
  if !(is_l_v v c) then some (false, core)
  else try_ugt_y_go fuel s v c core.lits core

/-- Inner try_y_l_ax_and_x_l_z (lines 337-349): given x <= z and a
companion y <= a*x, guarded by non-overflow of a*z, derive y <= a*z. -/
def try_y_l_ax2 (fuel : Nat) (s : Solver) (core : ConflictCore) (x_l_z y_l_ax : Inequality) (a y : Pdd) : Option (Bool × ConflictCore) :=
  if !(is_non_overflow s a x_l_z.rhs) then some (false, core)
  else
    rule_finish s core x_l_z y_l_ax
      (ineq (x_l_z.is_strict || y_l_ax.is_strict) y (Pdd.mul s.bound a x_l_z.rhs))
      (push_omega fuel s [x_l_z.src, y_l_ax.src] a x_l_z.rhs)

/-- Companion scan of try_y_l_ax_and_x_l_z (lines 327-333). -/
def try_y_l_ax_go (fuel : Nat) (s : Solver) (v : Nat) (c : Inequality) : List SignedConstraint → ConflictCore → Option (Bool × ConflictCore)
  | [], core => some (false, core)
  | dd :: rest, core =>
    if dd.is_ule then
      match is_Y_l_Ax v dd.as_inequality with
      | some (a, y) =>
        match try_y_l_ax2 fuel s core c dd.as_inequality a y with
        | none => none
        | some r => if r.1 then some r else try_y_l_ax_go fuel s v c rest r.2
      | none => try_y_l_ax_go fuel s v c rest core
    else try_y_l_ax_go fuel s v c rest core

/-- try_y_l_ax_and_x_l_z (lines 322-335): the outer literal must start with
the bare variable v; scan the core for a companion of shape y <= a*v. -/
def try_y_l_ax_and_x_l_z (fuel : Nat) (s : Solver) (v : Nat) (core : ConflictCore) (c : Inequality) : Option (Bool × ConflictCore) :=
  if !(is_g_v v c) then some (false, core)
  else try_y_l_ax_go fuel s v c core.lits core

/-- Inner try_ugt_z (lines 369-381): given z <= y' and a companion
y*x <= z*x, guarded by non-overflow of x*y', derive y*x <= y'*x. -/
def try_ugt_z2 (fuel : Nat) (s : Solver) (core : ConflictCore) (z_l_y yx_l_zx : Inequality) (x y : Pdd) : Option (Bool × ConflictCore) :=
  if !(is_non_overflow s x z_l_y.rhs) then some (false, core)
  else
    rule_finish s core z_l_y yx_l_zx
      (ineq (z_l_y.is_strict || yx_l_zx.is_strict) (Pdd.mul s.bound y x) (Pdd.mul s.bound z_l_y.rhs x))
      (push_omega fuel s [z_l_y.src, yx_l_zx.src] x z_l_y.rhs)

/-- Companion scan of try_ugt_z (lines 359-365). -/
def try_ugt_z_go (fuel : Nat) (s : Solver) (v : Nat) (c : Inequality) : List SignedConstraint → ConflictCore → Option (Bool × ConflictCore)
  | [], core => some (false, core)
  | dd :: rest, core =>
    if dd.is_ule then
      match is_YX_l_zX v dd.as_inequality with
      | some (x, y) =>
        match try_ugt_z2 fuel s core c dd.as_inequality x y with
        | none => none
        | some r => if r.1 then some r else try_ugt_z_go fuel s v c rest r.2
      | none => try_ugt_z_go fuel s v c rest core
    else try_ugt_z_go fuel s v c rest core

/-- try_ugt_z (lines 354-367): the outer literal must start with the bare
variable z; scan the core for a companion of shape y*x <= z*x. -/
def try_ugt_z (fuel : Nat) (s : Solver) (v : Nat) (core : ConflictCore) (c : Inequality) : Option (Bool × ConflictCore) :=
  if !(is_g_v v c) then some (false, core)
  else try_ugt_z_go fuel s v c core.lits core

/-- Sequencing of one rule attempt with the rest of the computation: on a
fired rule the result is final, on a failed rule the (unchanged) core is
handed to the continuation, and a diverged rule diverges the whole run. -/
def chain_step (o : Option (Bool × ConflictCore)) (nxt : ConflictCore → Option (Bool × ConflictCore)) : Option (Bool × ConflictCore) :=
  match o with
  | none => none
  | some r => if r.1 then some r else nxt r.2

/-- The fixed rule chain tried on one inequality literal by perform (lines
37-44): try_ugt_x, then try_ugt_y, then try_ugt_z, then
try_y_l_ax_and_x_l_z, stopping at the first success. -/
def try_rules_chain (fuel : Nat) (s : Solver) (v : Nat) (core : ConflictCore) (c : Inequality) : Option (Bool × ConflictCore) :=
  chain_step (try_ugt_x fuel s v core c) (fun k1 =>
    chain_step (try_ugt_y fuel s v k1 c) (fun k2 =>
      chain_step (try_ugt_z fuel s v k2 c) (fun k3 =>
        try_y_l_ax_and_x_l_z fuel s v k3 c)))

/-- Literal scan of perform (lines 33-45): skip non-inequality literals,
try the rule chain on each inequality, return at the first success. -/
def perform_go (fuel : Nat) (s : Solver) (v : Nat) : List SignedConstraint → ConflictCore → Option (Bool × ConflictCore)
  | [], core => some (false, core)
  | c1 :: rest, core =>
    if c1.is_ule then
      chain_step (try_rules_chain fuel s v core c1.as_inequality) (perform_go fuel s v rest)
    else perform_go fuel s v rest core

/-- perform (lines 32-47): the entry point of the saturation engine. -/
def perform (fuel : Nat) (s : Solver) (v : Nat) (core : ConflictCore) : Option (Bool × ConflictCore) :=
  perform_go fuel s v core.lits core

/-- Truth of an inequality between two concrete ring values under the
unsigned order (the semantics of the inequality view of a literal under a
valuation). -/
def ineq_sem : Bool → Nat → Nat → Prop
  | true, a, b => a < b
  | false, a, b => a ≤ b

instance ineq_sem_decidable (st : Bool) (a b : Nat) : Decidable (ineq_sem st a b) :=
  match st with
  | true => inferInstanceAs (Decidable (a < b))
  | false => inferInstanceAs (Decidable (a ≤ b))

/-- Soundness schema of try_ugt_x over the ring of integers mod m, premises
as the rule emits them: the critical literal x*Y <= x*Z (strict or not),
the disequality x != 0 in the non-strict case, and the omega side
conditions x <= x_lo and y <= y_lo with x_lo * y_lo below the bound; the
conclusion is the derived lemma Y <= Z. -/
def ugt_x_sound (m : Nat) : Prop :=
  ∀ (st : Bool) (x y z xlo ylo : Nat), x < m → y < m → z < m →
    ineq_sem st (x * y % m) (x * z % m) →
    (st = false → x ≠ 0) →
    x ≤ xlo → y ≤ ylo → xlo * ylo < m →
    ineq_sem st y z

/-- Soundness schema of try_ugt_y: premises z' <= y (strict iff s1),
y*x <= z*x (strict iff s2) and the omega side conditions for (x, y); the
conclusion is the derived lemma z'*x <= z*x, strict iff either premise
is. -/
def ugt_y_sound (m : Nat) : Prop :=
  ∀ (s1 s2 : Bool) (x y z zp xlo ylo : Nat), x < m → y < m → z < m → zp < m →
    ineq_sem s1 zp y →
    ineq_sem s2 (y * x % m) (z * x % m) →
    x ≤ xlo → y ≤ ylo → xlo * ylo < m →
    ineq_sem (s2 || s1) (zp * x % m) (z * x % m)

/-- Soundness schema of try_ugt_z: premises z <= y' (strict iff s1),
y*x <= z*x (strict iff s2) and the omega side conditions for (x, y'); the
conclusion is the derived lemma y*x <= y'*x, strict iff either premise
is. -/
def ugt_z_sound (m : Nat) : Prop :=
  ∀ (s1 s2 : Bool) (x y yp z xlo ylo : Nat), x < m → y < m → yp < m → z < m →
    ineq_sem s1 z yp →
    ineq_sem s2 (y * x % m) (z * x % m) →
    x ≤ xlo → yp ≤ ylo → xlo * ylo < m →
    ineq_sem (s1 || s2) (y * x % m) (yp * x % m)

/-- Soundness schema of try_y_l_ax_and_x_l_z: premises x <= z (strict iff
s1), y <= a*x (strict iff s2) and the omega side conditions for (a, z);
the conclusion is the derived lemma y <= a*z, strict iff either premise
is. -/
def y_l_ax_sound (m : Nat) : Prop :=
  ∀ (s1 s2 : Bool) (a x y z alo zlo : Nat), a < m → x < m → y < m → z < m →
    ineq_sem s1 x z →
    ineq_sem s2 y (a * x % m) →
    a ≤ alo → z ≤ zlo → alo * zlo < m →
    ineq_sem (s1 || s2) y (a * z % m)

/-- Claim C1 as stated: all four rule schemas are sound for every valuation
into the ring mod m. -/
def claim1_statement (m : Nat) : Prop :=
  ugt_x_sound m ∧ ugt_y_sound m ∧ ugt_z_sound m ∧ y_l_ax_sound m

/-- Amended try_ugt_y schema: additionally the multiplied factor x is
nonzero whenever the derived lemma is strict. -/
def ugt_y_sound_nz (m : Nat) : Prop :=
  ∀ (s1 s2 : Bool) (x y z zp xlo ylo : Nat), x < m → y < m → z < m → zp < m →
    ((s2 || s1) = true → x ≠ 0) →
    ineq_sem s1 zp y →
    ineq_sem s2 (y * x % m) (z * x % m) →
    x ≤ xlo → y ≤ ylo → xlo * ylo < m →
    ineq_sem (s2 || s1) (zp * x % m) (z * x % m)

/-- Amended try_ugt_z schema: additionally the multiplied factor x is
nonzero whenever the derived lemma is strict. -/
def ugt_z_sound_nz (m : Nat) : Prop :=
  ∀ (s1 s2 : Bool) (x y yp z xlo ylo : Nat), x < m → y < m → yp < m → z < m →
    ((s1 || s2) = true → x ≠ 0) →
    ineq_sem s1 z yp →
    ineq_sem s2 (y * x % m) (z * x % m) →
    x ≤ xlo → yp ≤ ylo → xlo * ylo < m →
    ineq_sem (s1 || s2) (y * x % m) (yp * x % m)

/-- Amended try_y_l_ax_and_x_l_z schema: additionally the multiplier a is
nonzero whenever the derived lemma is strict. -/
def y_l_ax_sound_nz (m : Nat) : Prop :=
  ∀ (s1 s2 : Bool) (a x y z alo zlo : Nat), a < m → x < m → y < m → z < m →
    ((s1 || s2) = true → a ≠ 0) →
    ineq_sem s1 x z →
    ineq_sem s2 y (a * x % m) →
    a ≤ alo → z ≤ zlo → alo * zlo < m →
    ineq_sem (s1 || s2) y (a * z % m)

/-- Scenario of claim C5, width 4: the core holds the non-strict literal
v*2 <= v*5, the current model assigns v = 3, the variable is otherwise
unconstrained so its viable maximum is 15. -/
def s5 : Solver := ⟨4, [(0, 3)], fun _ => 15, fun _ => [], fun _ => LBool.lundef⟩

/-- The literal v*2 <= v*5 of the C5 scenario. -/
def sc5 : SignedConstraint := mk_ule [(2, [0])] [(5, [0])]

/-- The conflict core of the C5 scenario. -/
def core5 : ConflictCore := ⟨[sc5], []⟩

/-- Solver of the bisection-divergence scenario of claim C2, width 2:
x and y are variables assigned 0, brackets [0,3] for both. -/
def s2c : Solver := ⟨2, [(0, 0), (1, 0)], fun _ => 0, fun _ => [], fun _ => LBool.lundef⟩

/-- Solver of the joint-loop divergence scenario of claim C3, width 4:
x = 3 with x_max = 4, y = 5 with y_max = 5, so that
x_val * y_val = 15 < 16 <= 20 = x_max * y_max. -/
def s3c : Solver := ⟨4, [(0, 3), (1, 5)], fun _ => 0, fun _ => [], fun _ => LBool.lundef⟩

/-- Solver of a terminating firing scenario (width 4, v = 3, viable
maximum 0 so that push_omega needs no bisection). -/
def sF : Solver := ⟨4, [(0, 3)], fun _ => 0, fun _ => [], fun _ => LBool.lundef⟩

/-- Strict literal v*5 < v*2, stored as the negation of v*2 <= v*5; it is
currently false since 15 < 6 fails at v = 3. -/
def scF5 : SignedConstraint := ⟨false, RawConstraint.ule [(2, [0])] [(5, [0])]⟩

/-- Conflict core of the firing scenario. -/
def coreF : ConflictCore := ⟨[scF5], []⟩

/-- Candidate literal derived by try_ugt_x in the firing scenario:
5 < 2 as a negated ule. -/
def candF : SignedConstraint := mk_ult [(5, ([] : List Nat))] [(2, ([] : List Nat))]

/-- Core state after the firing try_ugt_x: both keeps, then the candidate
is set; the omega tail is empty because the justification sets are
reused. -/
def coreFres : ConflictCore := ⟨[scF5], [CoreOp.keep scF5, CoreOp.keep scF5, CoreOp.set candF]⟩

/-- Solver of a terminating try_ugt_y firing scenario (width 2, v = 2,
second variable u = 1, viable maxima 1). -/
def sY : Solver := ⟨2, [(0, 2), (1, 1)], fun _ => 1, fun _ => [], fun _ => LBool.lundef⟩

/-- Outer literal 3 <= v of the try_ugt_y scenario (currently false at
v = 2). -/
def scCY : SignedConstraint := ⟨true, RawConstraint.ule [(3, ([] : List Nat))] [(1, [0])]⟩

/-- Companion literal v*u <= 2*u of the try_ugt_y scenario. -/
def scDY : SignedConstraint := ⟨true, RawConstraint.ule [(1, [0, 1])] [(2, [1])]⟩

/-- Conflict core of the try_ugt_y scenario. -/
def coreY : ConflictCore := ⟨[scCY, scDY], []⟩

/-- Candidate literal derived by try_ugt_y in that scenario: 3*u <= 2*u. -/
def candY : SignedConstraint := mk_ule [(3, [1])] [(2, [1])]

/-- Core state after the firing try_ugt_y: keeps of both critical
premises, the candidate is set, then both critical literals are inserted
as side conditions (the omega tail is empty). -/
def coreYres : ConflictCore :=
  ⟨[scCY, scDY, scCY, scDY],
   [CoreOp.keep scCY, CoreOp.keep scDY, CoreOp.set candY, CoreOp.insert scCY, CoreOp.insert scDY]⟩

/-- Width-4 solver with empty assignment, used by the propagate
witnesses. -/
def sW : Solver := ⟨4, [], fun _ => 0, fun _ => [], fun _ => LBool.lundef⟩

/-- Literal 1 <= 0, currently false under any assignment. -/
def scLow : SignedConstraint := mk_ule [(1, ([] : List Nat))] []

/-- Literal 0 <= 0, currently true under any assignment. -/
def scTriv : SignedConstraint := mk_ule ([] : Pdd) ([] : Pdd)

/-- Core holding a single non-inequality literal, for the no-op frame
witness. -/
def coreO : ConflictCore := ⟨[⟨true, RawConstraint.other 0⟩], []⟩

/-- The joint loop returns immediately when the guard fails, whatever the
fuel. -/
theorem joint_loop_done (bound : Int) (n : Nat) (st : BState) (h : bisect_guard st = false) :
    joint_loop bound n st = some st := by
  cases n <;> simp [joint_loop, h]

/-- A state of the joint loop that satisfies the guard and is a fixed
point of the loop body is never left: the loop diverges. -/
theorem joint_loop_stuck (bound : Int) (st : BState) (hg : bisect_guard st = true)
    (hs : bisect_step bound st = st) : ∀ f, joint_loop bound f st = none := by
  intro f
  induction f with
  | zero => simp [joint_loop, hg]
  | succ n ih => simp [joint_loop, hg, hs, ih]

/-- A bracket of an extension loop that satisfies the guard and is a fixed
point of the loop body is never left: the loop diverges. -/
theorem ext_loop_stuck (bound mult : Int) (p : Int × Int) (hg : p.1 < p.2)
    (hs : ext_step bound mult p = p) : ∀ f, ext_loop bound mult f p = none := by
  intro f
  induction f with
  | zero => simp [ext_loop, hg]
  | succ n ih => simp [ext_loop, hg, hs, ih]

/-- Folding core insertion over a literal list appends the matching insert
operations to the trace. -/
theorem foldl_insert_ops (ncs : List SignedConstraint) (k : ConflictCore) :
    (ncs.foldl ConflictCore.insert k).ops = k.ops ++ ncs.map CoreOp.insert := by
  induction ncs generalizing k with
  | nil => simp
  | cons d rest ih => simp [List.foldl_cons, ih, ConflictCore.insert]

/-- A failed propagate leaves the conflict core untouched. -/
theorem propagate_false_frame (s : Solver) (core : ConflictCore) (c1 c2 : Inequality)
    (c : SignedConstraint) (ncs : List SignedConstraint) (k : ConflictCore)
    (h : propagate s core c1 c2 c ncs = (false, k)) : k = core := by
  unfold propagate at h
  split at h
  · exact (congrArg Prod.snd h).symm
  · split at h
    · exact (congrArg Prod.snd h).symm
    · exact absurd (congrArg Prod.fst h) (by simp)

/-- A successful propagate appends to the trace, in order: the two keeps
of the critical premises, the gate operation on the candidate (insert of
its negation when boolean-false, else set), and the inserts of all side
conditions. -/
theorem propagate_true_shape (s : Solver) (core : ConflictCore) (c1 c2 : Inequality)
    (c : SignedConstraint) (ncs : List SignedConstraint) (k : ConflictCore)
    (h : propagate s core c1 c2 c ncs = (true, k)) :
    k.ops = core.ops ++ (CoreOp.keep c1.src :: CoreOp.keep c2.src ::
      (if s.bval c == LBool.lfalse then CoreOp.insert c.neg else CoreOp.set c) ::
      ncs.map CoreOp.insert) := by
  unfold propagate at h
  split at h
  · exact absurd (congrArg Prod.fst h) (by simp)
  · split at h
    · exact absurd (congrArg Prod.fst h) (by simp)
    · have hk : ncs.foldl ConflictCore.insert
          (if s.bval c == LBool.lfalse
            then ((core.keep c1.src).keep c2.src).insert c.neg
            else ((core.keep c1.src).keep c2.src).set c) = k := congrArg Prod.snd h
      subst hk
      rw [foldl_insert_ops]
      by_cases hb : s.bval c == LBool.lfalse
      · rw [if_pos hb, if_pos hb]
        simp [ConflictCore.insert, ConflictCore.keep]
      · rw [if_neg hb, if_neg hb]
        simp [ConflictCore.set, ConflictCore.keep]

/-- The x-side emission extends the accumulated side conditions. -/
theorem pob_finish_x_extends (s : Solver) (ncs : List SignedConstraint) (x y : Pdd)
    (ylo : Int) (o : Option (Int × Int)) (r : List SignedConstraint)
    (h : pob_finish_x s ncs x y ylo o = some r) : ∃ t, r = ncs ++ t := by
  cases o with
  | none => simp [pob_finish_x] at h
  | some p =>
    simp only [pob_finish_x] at h
    exact ⟨_, (Option.some.inj h).symm⟩

/-- The y-side emission extends the accumulated side conditions. -/
theorem pob_finish_y_extends (s : Solver) (ncs : List SignedConstraint) (x y : Pdd)
    (xlo : Int) (o : Option (Int × Int)) (r : List SignedConstraint)
    (h : pob_finish_y s ncs x y xlo o = some r) : ∃ t, r = ncs ++ t := by
  cases o with
  | none => simp [pob_finish_y] at h
  | some p =>
    simp only [pob_finish_y] at h
    exact ⟨_, (Option.some.inj h).symm⟩

/-- The tail of the bisection extends the accumulated side conditions. -/
theorem pob_after_extends (fuel : Nat) (s : Solver) (ncs : List SignedConstraint)
    (x : Pdd) (xmax : Int) (y : Pdd) (ymax : Int) (o : Option BState)
    (r : List SignedConstraint) (h : pob_after fuel s ncs x xmax y ymax o = some r) :
    ∃ t, r = ncs ++ t := by
  cases o with
  | none => simp [pob_after] at h
  | some st =>
    simp only [pob_after] at h
    split at h
    · exact pob_finish_x_extends _ _ _ _ _ _ _ h
    · split at h
      · exact pob_finish_y_extends _ _ _ _ _ _ _ h
      · exact ⟨_, (Option.some.inj h).symm⟩

/-- A successful bisection extends the accumulated side conditions. -/
theorem push_omega_bisect_extends (fuel : Nat) (s : Solver) (ncs : List SignedConstraint)
    (x : Pdd) (xmax : Int) (y : Pdd) (ymax : Int) (r : List SignedConstraint)
    (h : push_omega_bisect fuel s ncs x xmax y ymax = some r) : ∃ t, r = ncs ++ t := by
  unfold push_omega_bisect at h
  split at h
  · exact pob_after_extends _ _ _ _ _ _ _ _ _ h
  all_goals simp at h

/-- A successful push_omega only appends side conditions to the vector it
receives. -/
theorem push_omega_extends (fuel : Nat) (s : Solver) (ncs : List SignedConstraint)
    (x y : Pdd) (r : List SignedConstraint)
    (h : push_omega fuel s ncs x y = some r) : ∃ t, r = ncs ++ t := by
  unfold push_omega at h
  split at h
  · exact push_omega_bisect_extends _ _ _ _ _ _ _ _ h
  · refine ⟨s.cjust (Pdd.pvar y) ++ s.cjust (Pdd.pvar x), ?_⟩
    rw [← List.append_assoc]
    exact (Option.some.inj h).symm

/-- A rule whose final step reports failure leaves the core untouched. -/
theorem rule_finish_false (s : Solver) (core : ConflictCore) (c1 c2 : Inequality)
    (cand : SignedConstraint) (o : Option (List SignedConstraint)) (k : ConflictCore)
    (h : rule_finish s core c1 c2 cand o = some (false, k)) : k = core := by
  cases o with
  | none => simp [rule_finish] at h
  | some ncs =>
    simp only [rule_finish] at h
    exact propagate_false_frame _ _ _ _ _ _ _ (Option.some.inj h)

/-- A rule whose final step fires did receive side conditions and ran a
successful propagate on them. -/
theorem rule_finish_true (s : Solver) (core : ConflictCore) (c1 c2 : Inequality)
    (cand : SignedConstraint) (o : Option (List SignedConstraint)) (k : ConflictCore)
    (h : rule_finish s core c1 c2 cand o = some (true, k)) :
    ∃ ncs, o = some ncs ∧ propagate s core c1 c2 cand ncs = (true, k) := by
  cases o with
  | none => simp [rule_finish] at h
  | some ncs =>
    simp only [rule_finish] at h
    exact ⟨ncs, rfl, Option.some.inj h⟩

/-- Sequencing lemma: a fired first component is final. -/
theorem chain_step_true (k : ConflictCore) (nxt : ConflictCore → Option (Bool × ConflictCore)) :
    chain_step (some (true, k)) nxt = some (true, k) := rfl

/-- Sequencing lemma: a failed first component hands its core on. -/
theorem chain_step_false (k : ConflictCore) (nxt : ConflictCore → Option (Bool × ConflictCore)) :
    chain_step (some (false, k)) nxt = nxt k := rfl

/-- Sequencing lemma: a diverged first component diverges the run. -/
theorem chain_step_none (nxt : ConflictCore → Option (Bool × ConflictCore)) :
    chain_step none nxt = none := rfl

/-- A failed try_ugt_x leaves the core untouched. -/
theorem try_ugt_x_frame (fuel : Nat) (s : Solver) (v : Nat) (core : ConflictCore)
    (c : Inequality) (k : ConflictCore)
    (h : try_ugt_x fuel s v core c = some (false, k)) : k = core := by
  unfold try_ugt_x at h
  split at h
  · exact (congrArg Prod.snd (Option.some.inj h)).symm
  · split at h
    · exact (congrArg Prod.snd (Option.some.inj h)).symm
    · split at h
      · exact (congrArg Prod.snd (Option.some.inj h)).symm
      · exact rule_finish_false _ _ _ _ _ _ _ h

/-- A failed inner try_ugt_y leaves the core untouched. -/
theorem try_ugt_y2_frame (fuel : Nat) (s : Solver) (v : Nat) (core : ConflictCore)
    (le_y d : Inequality) (x z : Pdd) (k : ConflictCore)
    (h : try_ugt_y2 fuel s v core le_y d x z = some (false, k)) : k = core := by
  unfold try_ugt_y2 at h
  split at h
  · exact (congrArg Prod.snd (Option.some.inj h)).symm
  · exact rule_finish_false _ _ _ _ _ _ _ h

/-- A failed inner try_y_l_ax_and_x_l_z leaves the core untouched. -/
theorem try_y_l_ax2_frame (fuel : Nat) (s : Solver) (core : ConflictCore)
    (x_l_z d : Inequality) (a y : Pdd) (k : ConflictCore)
    (h : try_y_l_ax2 fuel s core x_l_z d a y = some (false, k)) : k = core := by
  unfold try_y_l_ax2 at h
  split at h
  · exact (congrArg Prod.snd (Option.some.inj h)).symm
  · exact rule_finish_false _ _ _ _ _ _ _ h

/-- A failed inner try_ugt_z leaves the core untouched. -/
theorem try_ugt_z2_frame (fuel : Nat) (s : Solver) (core : ConflictCore)
    (z_l_y d : Inequality) (x y : Pdd) (k : ConflictCore)
    (h : try_ugt_z2 fuel s core z_l_y d x y = some (false, k)) : k = core := by
  unfold try_ugt_z2 at h
  split at h
  · exact (congrArg Prod.snd (Option.some.inj h)).symm
  · exact rule_finish_false _ _ _ _ _ _ _ h

/-- Mutation trace of a fired try_ugt_x: the matched literal is kept twice
as both critical premises, the gate operation runs on the candidate, and
the inserted side conditions are the optional disequality v != 0 followed
by the push_omega tail; the matched literal itself is not inserted. -/
theorem try_ugt_x_shape (fuel : Nat) (s : Solver) (v : Nat) (core : ConflictCore)
    (c : Inequality) (k : ConflictCore)
    (h : try_ugt_x fuel s v core c = some (true, k)) :
    ∃ (y z : Pdd) (tail : List SignedConstraint) (g : CoreOp),
      is_xY_l_xZ v c = some (y, z) ∧
      push_omega fuel s (ugt_x_init v c) (var_pdd v) y = some (ugt_x_init v c ++ tail) ∧
      k.ops = core.ops ++ (CoreOp.keep c.src :: CoreOp.keep c.src :: g ::
        (ugt_x_init v c ++ tail).map CoreOp.insert) := by
  unfold try_ugt_x at h
  split at h
  · simp at h
  · rename_i y z hmatch
    split at h
    · simp at h
    · split at h
      · simp at h
      · obtain ⟨ncs, ho, hp⟩ := rule_finish_true _ _ _ _ _ _ _ h
        obtain ⟨t, ht⟩ := push_omega_extends _ _ _ _ _ _ ho
        subst ht
        exact ⟨y, z, t, _, hmatch, ho, propagate_true_shape _ _ _ _ _ _ _ hp⟩

/-- Mutation trace of a fired inner try_ugt_y: keeps of both critical
premises, the gate operation, then inserts of both critical literals
followed by the push_omega tail. -/
theorem try_ugt_y2_shape (fuel : Nat) (s : Solver) (v : Nat) (core : ConflictCore)
    (le_y d : Inequality) (x z : Pdd) (k : ConflictCore)
    (h : try_ugt_y2 fuel s v core le_y d x z = some (true, k)) :
    ∃ (tail : List SignedConstraint) (g : CoreOp),
      push_omega fuel s [le_y.src, d.src] x (var_pdd v) = some (le_y.src :: d.src :: tail) ∧
      k.ops = core.ops ++ (CoreOp.keep le_y.src :: CoreOp.keep d.src :: g ::
        (le_y.src :: d.src :: tail).map CoreOp.insert) := by
  unfold try_ugt_y2 at h
  split at h
  · simp at h
  · obtain ⟨ncs, ho, hp⟩ := rule_finish_true _ _ _ _ _ _ _ h
    obtain ⟨t, ht⟩ := push_omega_extends _ _ _ _ _ _ ho
    subst ht
    exact ⟨t, _, ho, propagate_true_shape _ _ _ _ _ _ _ hp⟩

/-- Mutation trace of a fired inner try_y_l_ax_and_x_l_z. -/
theorem try_y_l_ax2_shape (fuel : Nat) (s : Solver) (core : ConflictCore)
    (x_l_z d : Inequality) (a y : Pdd) (k : ConflictCore)
    (h : try_y_l_ax2 fuel s core x_l_z d a y = some (true, k)) :
    ∃ (tail : List SignedConstraint) (g : CoreOp),
      push_omega fuel s [x_l_z.src, d.src] a x_l_z.rhs = some (x_l_z.src :: d.src :: tail) ∧
      k.ops = core.ops ++ (CoreOp.keep x_l_z.src :: CoreOp.keep d.src :: g ::
        (x_l_z.src :: d.src :: tail).map CoreOp.insert) := by
  unfold try_y_l_ax2 at h
  split at h
  · simp at h
  · obtain ⟨ncs, ho, hp⟩ := rule_finish_true _ _ _ _ _ _ _ h
    obtain ⟨t, ht⟩ := push_omega_extends _ _ _ _ _ _ ho
    subst ht
    exact ⟨t, _, ho, propagate_true_shape _ _ _ _ _ _ _ hp⟩

/-- Mutation trace of a fired inner try_ugt_z. -/
theorem try_ugt_z2_shape (fuel : Nat) (s : Solver) (core : ConflictCore)
    (z_l_y d : Inequality) (x y : Pdd) (k : ConflictCore)
    (h : try_ugt_z2 fuel s core z_l_y d x y = some (true, k)) :
    ∃ (tail : List SignedConstraint) (g : CoreOp),
      push_omega fuel s [z_l_y.src, d.src] x z_l_y.rhs = some (z_l_y.src :: d.src :: tail) ∧
      k.ops = core.ops ++ (CoreOp.keep z_l_y.src :: CoreOp.keep d.src :: g ::
        (z_l_y.src :: d.src :: tail).map CoreOp.insert) := by
  unfold try_ugt_z2 at h
  split at h
  · simp at h
  · obtain ⟨ncs, ho, hp⟩ := rule_finish_true _ _ _ _ _ _ _ h
    obtain ⟨t, ht⟩ := push_omega_extends _ _ _ _ _ _ ho
    subst ht
    exact ⟨t, _, ho, propagate_true_shape _ _ _ _ _ _ _ hp⟩

/-- A fired companion scan of try_ugt_y fired its inner rule on some
matched companion d, with the scan core unchanged up to that point. -/
theorem try_ugt_y_go_shape (fuel : Nat) (s : Solver) (v : Nat) (c : Inequality)
    (L : List SignedConstraint) :
    ∀ (core k : ConflictCore), try_ugt_y_go fuel s v c L core = some (true, k) →
    ∃ (d : Inequality) (x : Pdd) (tail : List SignedConstraint) (g : CoreOp),
      push_omega fuel s [c.src, d.src] x (var_pdd v) = some (c.src :: d.src :: tail) ∧
      k.ops = core.ops ++ (CoreOp.keep c.src :: CoreOp.keep d.src :: g ::
        (c.src :: d.src :: tail).map CoreOp.insert) := by
  induction L with
  | nil => intro core k h; simp [try_ugt_y_go] at h
  | cons dd rest ih =>
    intro core k h
    unfold try_ugt_y_go at h
    split at h
    · split at h
      · rename_i x z hmatch
        split at h
        · exact absurd h (by simp)
        · rename_i r hr
          obtain ⟨rb, rc⟩ := r
          split at h
          · rename_i hb
            have hb' : rb = true := by simpa using hb
            subst hb'
            have hk := Option.some.inj h
            rw [hk] at hr
            obtain ⟨tail, g, hpo, hops⟩ := try_ugt_y2_shape _ _ _ _ _ _ _ _ _ hr
            exact ⟨dd.as_inequality, x, tail, g, hpo, hops⟩
          · rename_i hb
            have hb' : rb = false := by simpa using hb
            subst hb'
            have hfr : rc = core := try_ugt_y2_frame _ _ _ _ _ _ _ _ _ hr
            rw [hfr] at h
            exact ih core k h
      · exact ih core k h
    · exact ih core k h

/-- A fired companion scan of try_y_l_ax_and_x_l_z fired its inner rule on
some matched companion d. -/
theorem try_y_l_ax_go_shape (fuel : Nat) (s : Solver) (v : Nat) (c : Inequality)
    (L : List SignedConstraint) :
    ∀ (core k : ConflictCore), try_y_l_ax_go fuel s v c L core = some (true, k) →
    ∃ (d : Inequality) (a : Pdd) (tail : List SignedConstraint) (g : CoreOp),
      push_omega fuel s [c.src, d.src] a c.rhs = some (c.src :: d.src :: tail) ∧
      k.ops = core.ops ++ (CoreOp.keep c.src :: CoreOp.keep d.src :: g ::
        (c.src :: d.src :: tail).map CoreOp.insert) := by
  induction L with
  | nil => intro core k h; simp [try_y_l_ax_go] at h
  | cons dd rest ih =>
    intro core k h
    unfold try_y_l_ax_go at h
    split at h
    · split at h
      · rename_i a y hmatch
        split at h
        · exact absurd h (by simp)
        · rename_i r hr
          obtain ⟨rb, rc⟩ := r
          split at h
          · rename_i hb
            have hb' : rb = true := by simpa using hb
            subst hb'
            have hk := Option.some.inj h
            rw [hk] at hr
            obtain ⟨tail, g, hpo, hops⟩ := try_y_l_ax2_shape _ _ _ _ _ _ _ _ hr
            exact ⟨dd.as_inequality, a, tail, g, hpo, hops⟩
          · rename_i hb
            have hb' : rb = false := by simpa using hb
            subst hb'
            have hfr : rc = core := try_y_l_ax2_frame _ _ _ _ _ _ _ _ hr
            rw [hfr] at h
            exact ih core k h
      · exact ih core k h
    · exact ih core k h

/-- A fired companion scan of try_ugt_z fired its inner rule on some
matched companion d. -/
theorem try_ugt_z_go_shape (fuel : Nat) (s : Solver) (v : Nat) (c : Inequality)
    (L : List SignedConstraint) :
    ∀ (core k : ConflictCore), try_ugt_z_go fuel s v c L core = some (true, k) →
    ∃ (d : Inequality) (x : Pdd) (tail : List SignedConstraint) (g : CoreOp),
      push_omega fuel s [c.src, d.src] x c.rhs = some (c.src :: d.src :: tail) ∧
      k.ops = core.ops ++ (CoreOp.keep c.src :: CoreOp.keep d.src :: g ::
        (c.src :: d.src :: tail).map CoreOp.insert) := by
  induction L with
  | nil => intro core k h; simp [try_ugt_z_go] at h
  | cons dd rest ih =>
    intro core k h
    unfold try_ugt_z_go at h
    split at h
    · split at h
      · rename_i x y hmatch
        split at h
        · exact absurd h (by simp)
        · rename_i r hr
          obtain ⟨rb, rc⟩ := r
          split at h
          · rename_i hb
            have hb' : rb = true := by simpa using hb
            subst hb'
            have hk := Option.some.inj h
            rw [hk] at hr
            obtain ⟨tail, g, hpo, hops⟩ := try_ugt_z2_shape _ _ _ _ _ _ _ _ hr
            exact ⟨dd.as_inequality, x, tail, g, hpo, hops⟩
          · rename_i hb
            have hb' : rb = false := by simpa using hb
            subst hb'
            have hfr : rc = core := try_ugt_z2_frame _ _ _ _ _ _ _ _ hr
            rw [hfr] at h
            exact ih core k h
      · exact ih core k h
    · exact ih core k h

/-- Sequential composition of the four failing rules on one literal. -/
theorem chain_all_fail (fuel : Nat) (s : Solver) (v : Nat) (core : ConflictCore) (c : Inequality)
    (hx : try_ugt_x fuel s v core c = some (false, core))
    (hy : try_ugt_y fuel s v core c = some (false, core))
    (hz : try_ugt_z fuel s v core c = some (false, core))
    (hw : try_y_l_ax_and_x_l_z fuel s v core c = some (false, core)) :
    try_rules_chain fuel s v core c = some (false, core) := by
  unfold try_rules_chain
  rw [hx, chain_step_false]
  show chain_step (try_ugt_y fuel s v core c) _ = _
  rw [hy, chain_step_false]
  show chain_step (try_ugt_z fuel s v core c) _ = _
  rw [hz, chain_step_false]
  show try_y_l_ax_and_x_l_z fuel s v core c = _
  exact hw

/-- Scan lemma: when every literal in front fails and the rule chain fires
on d, the scan returns the chain result. -/
theorem perform_go_scan (fuel : Nat) (s : Solver) (v : Nat) (pre : List SignedConstraint) :
    ∀ (d : SignedConstraint) (post : List SignedConstraint) (core k : ConflictCore),
      (∀ e ∈ pre, e.is_ule = false ∨ try_rules_chain fuel s v core e.as_inequality = some (false, core)) →
      d.is_ule = true →
      try_rules_chain fuel s v core d.as_inequality = some (true, k) →
      perform_go fuel s v (pre ++ d :: post) core = some (true, k) := by
  induction pre with
  | nil =>
    intro d post core k _ hd hc
    simp only [List.nil_append]
    unfold perform_go
    rw [hd, if_pos rfl, hc, chain_step_true]
  | cons e pre ih =>
    intro d post core k hpre hd hc
    have he := hpre e (List.mem_cons_self e pre)
    have hrest : ∀ e' ∈ pre, e'.is_ule = false ∨
        try_rules_chain fuel s v core e'.as_inequality = some (false, core) :=
      fun e' h' => hpre e' (List.mem_cons_of_mem e h')
    rcases he with he | he
    · simp only [List.cons_append]
      unfold perform_go
      rw [he, if_neg (by simp)]
      exact ih d post core k hrest hd hc
    · by_cases hu : e.is_ule = true
      · simp only [List.cons_append]
        unfold perform_go
        rw [hu, if_pos rfl, he, chain_step_false]
        exact ih d post core k hrest hd hc
      · have hu' : e.is_ule = false := by simpa using hu
        simp only [List.cons_append]
        unfold perform_go
        rw [hu', if_neg (by simp)]
        exact ih d post core k hrest hd hc

/-- Scan lemma: when every literal is skipped or fails, the scan returns
false with the core unchanged. -/
theorem perform_go_all_fail (fuel : Nat) (s : Solver) (v : Nat) (core : ConflictCore)
    (L : List SignedConstraint) :
    (∀ e ∈ L, e.is_ule = false ∨ try_rules_chain fuel s v core e.as_inequality = some (false, core)) →
    perform_go fuel s v L core = some (false, core) := by
  induction L with
  | nil => intro _; rfl
  | cons e rest ih =>
    intro hall
    have he := hall e (List.mem_cons_self e rest)
    have hrest : ∀ e' ∈ rest, e'.is_ule = false ∨
        try_rules_chain fuel s v core e'.as_inequality = some (false, core) :=
      fun e' h' => hall e' (List.mem_cons_of_mem e h')
    rcases he with he | he
    · unfold perform_go
      rw [he, if_neg (by simp)]
      exact ih hrest
    · by_cases hu : e.is_ule = true
      · unfold perform_go
        rw [hu, if_pos rfl, he, chain_step_false]
        exact ih hrest
      · have hu' : e.is_ule = false := by simpa using hu
        unfold perform_go
        rw [hu', if_neg (by simp)]
        exact ih hrest

/-- Soundness of the try_ugt_x schema: multiplying an inequality by a
nonzero factor whose products stay below the bound is reversible. -/
theorem ugt_x_sound_holds (m : Nat) : ugt_x_sound m := by
  intro st x y z xlo ylo hx hy hz hc hnz hxlo hylo hb
  have hxy : x * y < m := lt_of_le_of_lt (Nat.mul_le_mul hxlo hylo) hb
  cases st with
  | true =>
    simp only [ineq_sem] at hc ⊢
    by_contra hcon
    push_neg at hcon
    have h2 : x * z ≤ x * y := Nat.mul_le_mul_left x hcon
    have h4 : x * z < m := lt_of_le_of_lt h2 hxy
    rw [Nat.mod_eq_of_lt hxy, Nat.mod_eq_of_lt h4] at hc
    exact absurd hc (not_lt.mpr h2)
  | false =>
    simp only [ineq_sem] at hc ⊢
    by_contra hcon
    push_neg at hcon
    have h1 : z + 1 ≤ y := hcon
    have h2 : x * (z + 1) ≤ x * y := Nat.mul_le_mul_left x h1
    have h3 : x * z + x ≤ x * y := by
      calc x * z + x = x * (z + 1) := by ring
        _ ≤ x * y := h2
    have h4 : x * z < m := lt_of_le_of_lt (le_trans (Nat.le_add_right _ x) h3) hxy
    rw [Nat.mod_eq_of_lt hxy, Nat.mod_eq_of_lt h4] at hc
    have hxpos : 0 < x := Nat.pos_of_ne_zero (hnz rfl)
    linarith

/-- Soundness of the amended try_ugt_y schema. -/
theorem ugt_y_sound_nz_holds (m : Nat) : ugt_y_sound_nz m := by
  intro s1 s2 x y z zp xlo ylo hx hy hz hzp hnz h1 h2 hxlo hylo hb
  have hyx : y * x < m := by
    have hx2 : x * y < m := lt_of_le_of_lt (Nat.mul_le_mul hxlo hylo) hb
    rwa [Nat.mul_comm] at hx2
  have hzp_le : zp ≤ y := by
    cases s1 <;> simp only [ineq_sem] at h1 <;> omega
  have hzpx_le : zp * x ≤ y * x := Nat.mul_le_mul_right x hzp_le
  have hzpx_lt : zp * x < m := lt_of_le_of_lt hzpx_le hyx
  rw [Nat.mod_eq_of_lt hyx] at h2
  rw [Nat.mod_eq_of_lt hzpx_lt]
  cases s2 with
  | true =>
    simp only [Bool.true_or, ineq_sem] at h2 ⊢
    exact lt_of_le_of_lt hzpx_le h2
  | false =>
    simp only [Bool.false_or] at hnz ⊢
    cases s1 with
    | false =>
      simp only [ineq_sem] at h2 ⊢
      exact le_trans hzpx_le h2
    | true =>
      simp only [ineq_sem] at h1 h2 ⊢
      have hxpos : 0 < x := Nat.pos_of_ne_zero (hnz rfl)
      have h3 : (zp + 1) * x ≤ y * x := Nat.mul_le_mul_right x h1
      have h4 : zp * x + x ≤ y * x := by
        calc zp * x + x = (zp + 1) * x := by ring
          _ ≤ y * x := h3
      have h5 : zp * x < y * x := by linarith
      exact lt_of_lt_of_le h5 h2

/-- Soundness of the amended try_ugt_z schema. -/
theorem ugt_z_sound_nz_holds (m : Nat) : ugt_z_sound_nz m := by
  intro s1 s2 x y yp z xlo ylo hx hy hyp hz hnz h1 h2 hxlo hylo hb
  have hypx : yp * x < m := by
    have hx2 : x * yp < m := lt_of_le_of_lt (Nat.mul_le_mul hxlo hylo) hb
    rwa [Nat.mul_comm] at hx2
  have hz_le : z ≤ yp := by
    cases s1 <;> simp only [ineq_sem] at h1 <;> omega
  have hzx_le : z * x ≤ yp * x := Nat.mul_le_mul_right x hz_le
  have hzx_lt : z * x < m := lt_of_le_of_lt hzx_le hypx
  rw [Nat.mod_eq_of_lt hzx_lt] at h2
  rw [Nat.mod_eq_of_lt hypx]
  have h2w : y * x % m ≤ z * x := by
    cases s2 <;> simp only [ineq_sem] at h2
    · exact h2
    · exact le_of_lt h2
  cases s1 with
  | true =>
    simp only [Bool.true_or, ineq_sem] at h1 ⊢
    have hxpos : 0 < x := Nat.pos_of_ne_zero (hnz (by simp))
    have h3 : (z + 1) * x ≤ yp * x := Nat.mul_le_mul_right x h1
    have h4 : z * x + x ≤ yp * x := by
      calc z * x + x = (z + 1) * x := by ring
        _ ≤ yp * x := h3
    linarith
  | false =>
    simp only [Bool.false_or] at hnz ⊢
    cases s2 with
    | true =>
      simp only [ineq_sem] at h2 ⊢
      exact lt_of_lt_of_le h2 hzx_le
    | false =>
      simp only [ineq_sem] at h2 ⊢
      exact le_trans h2 hzx_le

/-- Soundness of the amended try_y_l_ax_and_x_l_z schema. -/
theorem y_l_ax_sound_nz_holds (m : Nat) : y_l_ax_sound_nz m := by
  intro s1 s2 a x y z alo zlo ha hx hy hz hnz h1 h2 halo hzlo hb
  have haz : a * z < m := lt_of_le_of_lt (Nat.mul_le_mul halo hzlo) hb
  have hx_le : x ≤ z := by
    cases s1 <;> simp only [ineq_sem] at h1 <;> omega
  have hax_le : a * x ≤ a * z := Nat.mul_le_mul_left a hx_le
  have hax_lt : a * x < m := lt_of_le_of_lt hax_le haz
  rw [Nat.mod_eq_of_lt hax_lt] at h2
  rw [Nat.mod_eq_of_lt haz]
  have h2w : y ≤ a * x := by
    cases s2 <;> simp only [ineq_sem] at h2
    · exact h2
    · exact le_of_lt h2
  cases s1 with
  | true =>
    simp only [Bool.true_or, ineq_sem] at h1 ⊢
    have hapos : 0 < a := Nat.pos_of_ne_zero (hnz (by simp))
    have h3 : a * (x + 1) ≤ a * z := Nat.mul_le_mul_left a h1
    have h4 : a * x + a ≤ a * z := by
      calc a * x + a = a * (x + 1) := by ring
        _ ≤ a * z := h3
    linarith
  | false =>
    simp only [Bool.false_or] at hnz ⊢
    cases s2 with
    | true =>
      simp only [ineq_sem] at h2 ⊢
      exact lt_of_lt_of_le h2 hax_le
    | false =>
      simp only [ineq_sem]
      exact le_trans h2w hax_le

/-- Claim C1 (amended): rule soundness over every valuation into the ring
mod m holds for try_ugt_x as the claim states it, and for the three paired
rules under the added proviso that the multiplied factor is nonzero
whenever the derived lemma is strict. -/
theorem c1_rule_soundness_amended (m : Nat) :
    ugt_x_sound m ∧ ugt_y_sound_nz m ∧ ugt_z_sound_nz m ∧ y_l_ax_sound_nz m :=
  ⟨ugt_x_sound_holds m, ugt_y_sound_nz_holds m, ugt_z_sound_nz_holds m, y_l_ax_sound_nz_holds m⟩

/-- Claim C1 as stated is false: at width 2 the try_ugt_y schema derives
the strict lemma z'*x < z*x from the premises z' < y, y*x <= z*x and the
omega bounds, which fails at the valuation x = 0, y = 1, z = z' = 0 with
x_lo = 0, y_lo = 1. -/
theorem c1_rule_soundness_as_stated_fails : ¬ claim1_statement 4 := by
  intro h
  have h0 := h.2.1 true false 0 1 0 0 0 1 (by decide) (by decide) (by decide) (by decide)
    (by decide) (by decide) (by decide) (by decide) (by decide)
  exact absurd h0 (by decide)

/-- Witness for the amended claim C1: the try_ugt_x conjunct applied at
width 4 to x = 2, y = 3, z = 5 with bounds x_lo = 2, y_lo = 3 yields the
lemma 3 <= 5. -/
theorem c1_rule_soundness_amended_witness : ineq_sem false 3 5 :=
  (c1_rule_soundness_amended 16).1 false 2 3 5 2 3 (by decide) (by decide) (by decide)
    (by decide) (fun _ => by decide) (by decide) (by decide) (by decide)

/-- Claim C3: the joint bisection loop does not terminate on the valid
input bound = 16, x_val = 3, x_max = 4, y_val = 5, y_max = 5 (so that
x_val * y_val = 15 < 16 <= 20 = x_max * y_max): the state satisfies the
loop guard yet is a fixed point of the loop body, so the loop, and with it
push_omega_bisect, runs forever whatever fuel it is given. -/
theorem c3_joint_bisection_diverges :
    bisect_guard ⟨3, 4, 5, 5⟩ = true ∧
    bisect_step 16 ⟨3, 4, 5, 5⟩ = ⟨3, 4, 5, 5⟩ ∧
    (∀ f, joint_loop 16 f ⟨3, 4, 5, 5⟩ = none) ∧
    (∀ f, push_omega_bisect f s3c [] (var_pdd 0) 4 (var_pdd 1) 5 = none) := by
  have hfix : ∀ f, joint_loop 16 f ⟨3, 4, 5, 5⟩ = none :=
    joint_loop_stuck 16 ⟨3, 4, 5, 5⟩ (by decide) (by decide)
  refine ⟨by decide, by decide, hfix, ?_⟩
  intro f
  have hb : push_omega_bisect f s3c [] (var_pdd 0) 4 (var_pdd 1) 5 =
      pob_after f s3c [] (var_pdd 0) 4 (var_pdd 1) 5 (joint_loop 16 f ⟨3, 4, 5, 5⟩) := rfl
  rw [hb, hfix f]
  rfl

/-- Claim C2: on the valid input bound = 4, x_val = 0, x_max = 3,
y_val = 0, y_max = 3 the joint loop terminates at (1, 1), but the
unilateral x-extension loop then reaches the bracket (2, 3), whose
midpoint is again 2, and loops forever: push_omega_bisect produces no
output pair and no literals whatever fuel it is given. -/
theorem c2_bisect_diverges_on_valid_input :
    (∀ f, joint_loop 4 (f + 2) ⟨0, 3, 0, 3⟩ = some ⟨1, 1, 1, 1⟩) ∧
    ext_step 4 1 (2, 3) = (2, 3) ∧
    (∀ f, ext_loop 4 1 f (2, 3) = none) ∧
    (∀ f, push_omega_bisect f s2c [] (var_pdd 0) 3 (var_pdd 1) 3 = none) := by
  have hext : ∀ f, ext_loop 4 1 f (2, 3) = none :=
    ext_loop_stuck 4 1 (2, 3) (by decide) (by decide)
  have hjoint : ∀ f, joint_loop 4 (f + 2) ⟨0, 3, 0, 3⟩ = some ⟨1, 1, 1, 1⟩ := by
    intro f
    exact joint_loop_done 4 f ⟨1, 1, 1, 1⟩ (by decide)
  refine ⟨hjoint, by decide, hext, ?_⟩
  intro f
  match f with
  | 0 => rfl
  | 1 => rfl
  | (n + 2) =>
    have hb : push_omega_bisect (n + 2) s2c [] (var_pdd 0) 3 (var_pdd 1) 3 =
        pob_after (n + 2) s2c [] (var_pdd 0) 3 (var_pdd 1) 3
          (joint_loop 4 (n + 2) ⟨0, 3, 0, 3⟩) := rfl
    rw [hb, hjoint n]
    have hb2 : pob_after (n + 2) s2c [] (var_pdd 0) 3 (var_pdd 1) 3 (some ⟨1, 1, 1, 1⟩) =
        pob_finish_x s2c [] (var_pdd 0) (var_pdd 1) 1 (ext_loop 4 1 (n + 2) (1, 3)) := rfl
    rw [hb2]
    have he : ext_loop 4 1 (n + 2) (1, 3) = none := hext (n + 1)
    rw [he]
    rfl

/-- Claim C5: in the spec scenario (width 4, core literal v*2 <= v*5,
v = 3, v otherwise unconstrained so its viable maximum is 15) try_ugt_x
passes its match and guards but then enters push_omega_bisect with the
brackets x in [3, 15], y in [2, 15], which reaches the repeating state
x in [3, 4], y in [2, 3]; neither try_ugt_x nor perform ever returns. -/
theorem c5_concrete_scenario_diverges :
    (∀ f, try_ugt_x f s5 0 core5 sc5.as_inequality = none) ∧
    (∀ f, perform f s5 0 core5 = none) := by
  have hjoint : ∀ f, joint_loop 16 f ⟨3, 15, 2, 15⟩ = none := by
    intro f
    match f with
    | 0 => rfl
    | 1 => rfl
    | (n + 2) => exact joint_loop_stuck 16 ⟨3, 4, 2, 3⟩ (by decide) (by decide) n
  have hx : ∀ f, try_ugt_x f s5 0 core5 sc5.as_inequality = none := by
    intro f
    have hpo : push_omega f s5 [(mk_eq (var_pdd 0)).neg] (var_pdd 0) [(2, ([] : List Nat))] = none := by
      have hb2 : push_omega f s5 [(mk_eq (var_pdd 0)).neg] (var_pdd 0) [(2, ([] : List Nat))] =
          pob_after f s5 [(mk_eq (var_pdd 0)).neg] (var_pdd 0) 15 [(2, ([] : List Nat))] 15
            (joint_loop 16 f ⟨3, 15, 2, 15⟩) := rfl
      rw [hb2, hjoint f]
      rfl
    have hb : try_ugt_x f s5 0 core5 sc5.as_inequality =
        rule_finish s5 core5 sc5.as_inequality sc5.as_inequality
          (ineq false [(2, ([] : List Nat))] [(5, ([] : List Nat))])
          (push_omega f s5 [(mk_eq (var_pdd 0)).neg] (var_pdd 0) [(2, ([] : List Nat))]) := rfl
    rw [hb, hpo]
    rfl
  refine ⟨hx, ?_⟩
  intro f
  have hc : try_rules_chain f s5 0 core5 sc5.as_inequality = none := by
    unfold try_rules_chain
    rw [hx f, chain_step_none]
  have hp : perform f s5 0 core5 =
      chain_step (try_rules_chain f s5 0 core5 sc5.as_inequality) (perform_go f s5 0 []) := rfl
  rw [hp, hc, chain_step_none]

/-- Claim C4: propagate returns false with the conflict core untouched (no
keep, insert or set recorded, literal sequence unchanged) whenever neither
critical premise is currently false under the model, or whenever the
candidate is neither boolean-false nor currently false under the model. -/
theorem c4_propagate_gate_rejects (s : Solver) (core : ConflictCore) (c1 c2 : Inequality)
    (c : SignedConstraint) (ncs : List SignedConstraint)
    (h : (c1.src.is_currently_false s = false ∧ c2.src.is_currently_false s = false) ∨
         (s.bval c ≠ LBool.lfalse ∧ c.is_currently_false s = false)) :
    propagate s core c1 c2 c ncs = (false, core) := by
  unfold propagate
  rcases h with ⟨h1, h2⟩ | ⟨h1, h2⟩
  · rw [h1, h2]
    simp
  · split
    · rfl
    · have hb : (s.bval c == LBool.lfalse) = false := beq_eq_false_iff_ne.mpr h1
      rw [hb, h2]
      simp

/-- Witness for claim C4: with both critical premises the trivially true
literal 0 <= 0, the gate rejects and the core is returned unchanged. -/
theorem c4_propagate_gate_rejects_witness :
    propagate sW ⟨[], []⟩ scTriv.as_inequality scTriv.as_inequality scTriv [] = (false, ⟨[], []⟩) :=
  c4_propagate_gate_rejects sW ⟨[], []⟩ scTriv.as_inequality scTriv.as_inequality scTriv []
    (Or.inl ⟨rfl, rfl⟩)

/-- Claim C6: a successful propagate appends to the mutation trace, in
order, the keep of the first critical premise, the keep of the second,
then the insert of the negated candidate when the candidate was
boolean-false and otherwise the set of the candidate, and finally the
inserts of every derived side condition. -/
theorem c6_propagate_success_trace (s : Solver) (core : ConflictCore) (c1 c2 : Inequality)
    (c : SignedConstraint) (ncs : List SignedConstraint) (k : ConflictCore)
    (h : propagate s core c1 c2 c ncs = (true, k)) :
    k.ops = core.ops ++ (CoreOp.keep c1.src :: CoreOp.keep c2.src ::
      (if s.bval c == LBool.lfalse then CoreOp.insert c.neg else CoreOp.set c) ::
      ncs.map CoreOp.insert) :=
  propagate_true_shape s core c1 c2 c ncs k h

/-- Witness for claim C6: a successful propagate on the model-false
literal 1 <= 0 (boolean value undetermined) pins it twice and sets it. -/
theorem c6_propagate_success_trace_witness :
    (⟨[], [CoreOp.keep scLow, CoreOp.keep scLow, CoreOp.set scLow]⟩ : ConflictCore).ops =
      ([] : List CoreOp) ++ (CoreOp.keep scLow :: CoreOp.keep scLow ::
        (if sW.bval scLow == LBool.lfalse then CoreOp.insert scLow.neg else CoreOp.set scLow) ::
        ([] : List SignedConstraint).map CoreOp.insert) :=
  c6_propagate_success_trace sW ⟨[], []⟩ scLow.as_inequality scLow.as_inequality scLow []
    ⟨[], [CoreOp.keep scLow, CoreOp.keep scLow, CoreOp.set scLow]⟩ rfl

/-- Claim C8: push_omega dispatches on the worst-case product of the two
per-factor maxima (viable maximum for a bare variable, bound - 1
otherwise): at or above the bound it runs the bisection, strictly below it
it appends exactly the existing bound-justification literals of y and of
x, with no search. -/
theorem c8_push_omega_dispatch (fuel : Nat) (s : Solver) (ncs : List SignedConstraint)
    (x y : Pdd) :
    ((s.bound : Int) ≤ x_max_of s x * x_max_of s y →
      push_omega fuel s ncs x y =
        push_omega_bisect fuel s ncs x (x_max_of s x) y (x_max_of s y)) ∧
    (x_max_of s x * x_max_of s y < (s.bound : Int) →
      push_omega fuel s ncs x y = some ((ncs ++ s.cjust (Pdd.pvar y)) ++ s.cjust (Pdd.pvar x))) := by
  constructor
  · intro h
    unfold push_omega
    rw [if_pos h]
  · intro h
    unfold push_omega
    rw [if_neg (not_le.mpr h)]

/-- Witness for claim C8: in the firing scenario the worst-case product is
0 * 15 < 16, so push_omega reuses the (empty) justification sets. -/
theorem c8_push_omega_dispatch_witness :
    push_omega 0 sF [] (var_pdd 0) [(5, ([] : List Nat))] = some [] :=
  (c8_push_omega_dispatch 0 sF [] (var_pdd 0) [(5, ([] : List Nat))]).2 (by decide)

/-- Claim C7: perform tries the four rules in the fixed order try_ugt_x,
try_ugt_y, try_ugt_z, try_y_l_ax_and_x_l_z on each literal (the first
four conjuncts), and scans exactly the inequality literals of the core in
order, returning the first fired result immediately (last conjunct);
non-inequality literals need no failure hypothesis because they are
skipped. -/
theorem c7_perform_order :
    (∀ (fuel : Nat) (s : Solver) (v : Nat) (core : ConflictCore) (c : Inequality)
        (k : ConflictCore),
      try_ugt_x fuel s v core c = some (true, k) →
      try_rules_chain fuel s v core c = some (true, k)) ∧
    (∀ (fuel : Nat) (s : Solver) (v : Nat) (core : ConflictCore) (c : Inequality)
        (k : ConflictCore),
      try_ugt_x fuel s v core c = some (false, core) →
      try_ugt_y fuel s v core c = some (true, k) →
      try_rules_chain fuel s v core c = some (true, k)) ∧
    (∀ (fuel : Nat) (s : Solver) (v : Nat) (core : ConflictCore) (c : Inequality)
        (k : ConflictCore),
      try_ugt_x fuel s v core c = some (false, core) →
      try_ugt_y fuel s v core c = some (false, core) →
      try_ugt_z fuel s v core c = some (true, k) →
      try_rules_chain fuel s v core c = some (true, k)) ∧
    (∀ (fuel : Nat) (s : Solver) (v : Nat) (core : ConflictCore) (c : Inequality),
      try_ugt_x fuel s v core c = some (false, core) →
      try_ugt_y fuel s v core c = some (false, core) →
      try_ugt_z fuel s v core c = some (false, core) →
      try_rules_chain fuel s v core c = try_y_l_ax_and_x_l_z fuel s v core c) ∧
    (∀ (fuel : Nat) (s : Solver) (v : Nat) (core : ConflictCore)
        (pre : List SignedConstraint) (d : SignedConstraint) (post : List SignedConstraint)
        (k : ConflictCore),
      core.lits = pre ++ d :: post →
      (∀ e ∈ pre, e.is_ule = false ∨
        try_rules_chain fuel s v core e.as_inequality = some (false, core)) →
      d.is_ule = true →
      try_rules_chain fuel s v core d.as_inequality = some (true, k) →
      perform fuel s v core = some (true, k)) := by
  refine ⟨?_, ?_, ?_, ?_, ?_⟩
  · intro fuel s v core c k h
    unfold try_rules_chain
    rw [h, chain_step_true]
  · intro fuel s v core c k h1 h2
    unfold try_rules_chain
    rw [h1, chain_step_false]
    show chain_step (try_ugt_y fuel s v core c) _ = _
    rw [h2, chain_step_true]
  · intro fuel s v core c k h1 h2 h3
    unfold try_rules_chain
    rw [h1, chain_step_false]
    show chain_step (try_ugt_y fuel s v core c) _ = _
    rw [h2, chain_step_false]
    show chain_step (try_ugt_z fuel s v core c) _ = _
    rw [h3, chain_step_true]
  · intro fuel s v core c h1 h2 h3
    unfold try_rules_chain
    rw [h1, chain_step_false]
    show chain_step (try_ugt_y fuel s v core c) _ = _
    rw [h2, chain_step_false]
    show chain_step (try_ugt_z fuel s v core c) _ = _
    rw [h3, chain_step_false]
  · intro fuel s v core pre d post k hlits hpre hd hc
    unfold perform
    rw [hlits]
    exact perform_go_scan fuel s v pre d post core k hpre hd hc

/-- Witness for claim C7: in the firing scenario the single core literal
is an inequality, the rule chain fires on it through try_ugt_x, and
perform returns its result. -/
theorem c7_perform_order_witness : perform 0 sF 0 coreF = some (true, coreFres) := by
  refine c7_perform_order.2.2.2.2 0 sF 0 coreF [] scF5 [] coreFres rfl ?_ rfl rfl
  intro e he
  exact absurd he (List.not_mem_nil e)

/-- Claim C9: when every core literal is a non-inequality or has all four
rules failing on it, perform returns false and the conflict core is
returned unchanged: same literal sequence, no keep, insert or set
recorded. -/
theorem c9_perform_noop_frame (fuel : Nat) (s : Solver) (v : Nat) (core : ConflictCore)
    (h : ∀ e ∈ core.lits, e.is_ule = false ∨
      (try_ugt_x fuel s v core e.as_inequality = some (false, core) ∧
       try_ugt_y fuel s v core e.as_inequality = some (false, core) ∧
       try_ugt_z fuel s v core e.as_inequality = some (false, core) ∧
       try_y_l_ax_and_x_l_z fuel s v core e.as_inequality = some (false, core))) :
    perform fuel s v core = some (false, core) := by
  unfold perform
  apply perform_go_all_fail
  intro e he
  rcases h e he with he' | ⟨h1, h2, h3, h4⟩
  · exact Or.inl he'
  · exact Or.inr (chain_all_fail fuel s v core e.as_inequality h1 h2 h3 h4)

/-- Witness for claim C9: a core holding one non-inequality literal is
returned byte-for-byte unchanged. -/
theorem c9_perform_noop_frame_witness : perform 0 sW 0 coreO = some (false, coreO) := by
  apply c9_perform_noop_frame
  intro e he
  have he' : e = ⟨true, RawConstraint.other 0⟩ := by simpa [coreO] using he
  subst he'
  exact Or.inl rfl

/-- Claim C10: a fired try_ugt_x inserts only the optional disequality
v != 0 followed by the push_omega tail (never the matched literal itself),
while each fired paired rule inserts its two critical premise literals
themselves ahead of the push_omega tail. -/
theorem c10_premise_insertion_asymmetry :
    (∀ (fuel : Nat) (s : Solver) (v : Nat) (core : ConflictCore) (c : Inequality)
        (k : ConflictCore),
      try_ugt_x fuel s v core c = some (true, k) →
      ∃ (y z : Pdd) (tail : List SignedConstraint) (g : CoreOp),
        is_xY_l_xZ v c = some (y, z) ∧
        push_omega fuel s (ugt_x_init v c) (var_pdd v) y = some (ugt_x_init v c ++ tail) ∧
        k.ops = core.ops ++ (CoreOp.keep c.src :: CoreOp.keep c.src :: g ::
          (ugt_x_init v c ++ tail).map CoreOp.insert)) ∧
    (∀ (fuel : Nat) (s : Solver) (v : Nat) (core : ConflictCore) (c : Inequality)
        (k : ConflictCore),
      try_ugt_y fuel s v core c = some (true, k) →
      ∃ (d : Inequality) (x : Pdd) (tail : List SignedConstraint) (g : CoreOp),
        push_omega fuel s [c.src, d.src] x (var_pdd v) = some (c.src :: d.src :: tail) ∧
        k.ops = core.ops ++ (CoreOp.keep c.src :: CoreOp.keep d.src :: g ::
          (c.src :: d.src :: tail).map CoreOp.insert)) ∧
    (∀ (fuel : Nat) (s : Solver) (v : Nat) (core : ConflictCore) (c : Inequality)
        (k : ConflictCore),
      try_ugt_z fuel s v core c = some (true, k) →
      ∃ (d : Inequality) (x : Pdd) (tail : List SignedConstraint) (g : CoreOp),
        push_omega fuel s [c.src, d.src] x c.rhs = some (c.src :: d.src :: tail) ∧
        k.ops = core.ops ++ (CoreOp.keep c.src :: CoreOp.keep d.src :: g ::
          (c.src :: d.src :: tail).map CoreOp.insert)) ∧
    (∀ (fuel : Nat) (s : Solver) (v : Nat) (core : ConflictCore) (c : Inequality)
        (k : ConflictCore),
      try_y_l_ax_and_x_l_z fuel s v core c = some (true, k) →
      ∃ (d : Inequality) (a : Pdd) (tail : List SignedConstraint) (g : CoreOp),
        push_omega fuel s [c.src, d.src] a c.rhs = some (c.src :: d.src :: tail) ∧
        k.ops = core.ops ++ (CoreOp.keep c.src :: CoreOp.keep d.src :: g ::
          (c.src :: d.src :: tail).map CoreOp.insert)) := by
  refine ⟨try_ugt_x_shape, ?_, ?_, ?_⟩
  · intro fuel s v core c k h
    unfold try_ugt_y at h
    split at h
    · simp at h
    · exact try_ugt_y_go_shape fuel s v c core.lits core k h
  · intro fuel s v core c k h
    unfold try_ugt_z at h
    split at h
    · simp at h
    · exact try_ugt_z_go_shape fuel s v c core.lits core k h
  · intro fuel s v core c k h
    unfold try_y_l_ax_and_x_l_z at h
    split at h
    · simp at h
    · exact try_y_l_ax_go_shape fuel s v c core.lits core k h

/-- Witness for claim C10: the fired try_ugt_x of the strict firing
scenario inserts nothing but the (empty) omega tail, while the fired
try_ugt_y of its scenario re-inserts both critical literals. -/
theorem c10_premise_insertion_asymmetry_witness :
    (∃ (y z : Pdd) (tail : List SignedConstraint) (g : CoreOp),
      is_xY_l_xZ 0 scF5.as_inequality = some (y, z) ∧
      push_omega 0 sF (ugt_x_init 0 scF5.as_inequality) (var_pdd 0) y =
        some (ugt_x_init 0 scF5.as_inequality ++ tail) ∧
      coreFres.ops = coreF.ops ++ (CoreOp.keep scF5.as_inequality.src ::
        CoreOp.keep scF5.as_inequality.src :: g ::
        (ugt_x_init 0 scF5.as_inequality ++ tail).map CoreOp.insert)) ∧
    (∃ (d : Inequality) (x : Pdd) (tail : List SignedConstraint) (g : CoreOp),
      push_omega 0 sY [scCY.as_inequality.src, d.src] x (var_pdd 0) =
        some (scCY.as_inequality.src :: d.src :: tail) ∧
      coreYres.ops = coreY.ops ++ (CoreOp.keep scCY.as_inequality.src :: CoreOp.keep d.src :: g ::
        (scCY.as_inequality.src :: d.src :: tail).map CoreOp.insert)) :=
  ⟨c10_premise_insertion_asymmetry.1 0 sF 0 coreF scF5.as_inequality coreFres (by decide),
   c10_premise_insertion_asymmetry.2.1 0 sY 0 coreY scCY.as_inequality coreYres (by decide)⟩
